import Mathlib

/-!
# Verification of the piceus plugin-verification pipeline

A shallow embedding, in Lean 4, of the core validation logic of the
`traefik/piceus` plugin scrapper: the reflection-based `New`-signature
contract check, the sensitive-environment-variable scrub, panic
containment around the interpreted-code (Yaegi) check, manifest
validation, the catalog skip/store decision, the WASM release-archive
verification, tag listing, and the secret-redacting issue-body builder.

Go functions are translated into executable Lean definitions.  External
effects (the GitHub API, the Yaegi interpreter, HTTP downloads) are
passed in as explicit result values, so every definition is a pure,
decidable function of its inputs.
-/

set_option autoImplicit false

namespace Piceus

/-! ## String helpers

Executable counterparts of the `strings` standard-library functions the
Go code uses, defined over `List Char` so that concrete instances reduce
in the kernel. -/

/-- `strings.Contains` on character lists: `hasSubstr hay pat` is true iff
`pat` occurs contiguously inside `hay` (the empty pattern always matches,
as in Go). -/
def hasSubstr (hay pat : List Char) : Bool :=
  if pat.isPrefixOf hay then true
  else
    match hay with
    | [] => false
    | _ :: t => hasSubstr t pat

/-- `strings.Contains` on strings. -/
def strContains (s pat : String) : Bool :=
  hasSubstr s.data pat.data

/-! ## The reflect-level type model

`checkFunctionNewSignature` (pkg/core/scrapper.go) inspects the
`reflect.Type` of the interpreted plugin's `New` function.  A Go type is
modelled by the facts the check consults: whether it implements
`context.Context`, `http.Handler` or `error`, whether its kind is
`string`, and which type identities it is assignable to. -/

/-- Model of a `reflect.Type` as consulted by the signature check.
`id` gives the type an identity; `assignable` lists the ids of the types
this type is assignable to (`reflect.Type.AssignableTo`). -/
structure GoType where
  id : Nat
  implementsContext : Bool := false
  implementsHandler : Bool := false
  implementsError : Bool := false
  kindIsString : Bool := false
  assignable : List Nat := []
deriving Repr, DecidableEq

/-- `t.AssignableTo(u)` in the model. -/
def assignableTo (t u : GoType) : Bool :=
  t.assignable.contains u.id

/-- The `reflect.Type` of a function: its input and output types
(`NumIn`/`In(i)` and `NumOut`/`Out(i)`). -/
structure FnType where
  ins : List GoType
  outs : List GoType
deriving Repr, DecidableEq

/-- Translation of `checkFunctionNewSignature` (pkg/core/scrapper.go,
lines 830-868).  `fn` is the reflect type of the resolved `New` symbol and
`cfgTy` the type of the value returned by `CreateConfig()`.  The checks
and the error messages are reproduced verbatim, in source order; matching
on a four-element (resp. two-element) list is the `NumIn() != 4`
(resp. `NumOut() != 2`) arity test. -/
def checkFunctionNewSignature (fn : FnType) (cfgTy : GoType) : Except String Unit :=
  match fn.ins with
  | [i0, i1, i2, i3] =>
    if !i0.implementsContext then
      .error "invalid input arguments: the 1st argument must have the type context.Context"
    else if !i1.implementsHandler then
      .error "invalid input arguments: the 2nd argument must have the type http.Handler"
    else if !(assignableTo i2 cfgTy) then
      .error "invalid input arguments: the 3rd argument must have the same type as the Config structure"
    else if !i3.kindIsString then
      .error "invalid input arguments: the 4th argument must have the type string"
    else
      match fn.outs with
      | [o0, o1] =>
        if !o0.implementsHandler then
          .error "invalid input arguments: the 1st argument must have the type http.Handler"
        else if !o1.implementsError then
          .error "invalid input arguments: the 2nd argument must have the type error"
        else
          .ok ()
      | outs =>
        .error ("invalid output arguments: got " ++ toString outs.length ++ " arguments expected 2")
  | ins =>
    .error ("invalid input arguments: got " ++ toString ins.length ++ " arguments expected 4")

/-- The contract the claim describes: exactly four inputs typed
context / handler / assignable-to-config / string and exactly two outputs
typed handler / error. -/
def validNewSignature (fn : FnType) (cfgTy : GoType) : Bool :=
  match fn.ins, fn.outs with
  | [i0, i1, i2, i3], [o0, o1] =>
    i0.implementsContext && i1.implementsHandler && assignableTo i2 cfgTy &&
      i3.kindIsString && o0.implementsHandler && o1.implementsError
  | _, _ => false

/-- All four input positions satisfy the contract (used to isolate
output-side deviations). -/
def validNewInputs (fn : FnType) (cfgTy : GoType) : Bool :=
  match fn.ins with
  | [i0, i1, i2, i3] =>
    i0.implementsContext && i1.implementsHandler && assignableTo i2 cfgTy && i3.kindIsString
  | _ => false

/-! Sample concrete types, used by witnesses and counterexamples. -/

/-- A concrete type implementing `context.Context`. -/
def ctxTy : GoType := { id := 0, implementsContext := true }

/-- A concrete type implementing `http.Handler`. -/
def handlerTy : GoType := { id := 1, implementsHandler := true }

/-- A concrete type implementing `error`. -/
def errTy : GoType := { id := 2, implementsError := true }

/-- A concrete configuration-pointer type, assignable to itself. -/
def cfgPtrTy : GoType := { id := 3, assignable := [3] }

/-- A concrete string-kind type. -/
def strTy : GoType := { id := 4, kindIsString := true }

/-- A concrete type satisfying none of the contract's interfaces. -/
def intTy : GoType := { id := 5 }

/-- The well-typed `New` signature
`func(context.Context, http.Handler, *Config, string) (http.Handler, error)`. -/
def goodNewFn : FnType :=
  { ins := [ctxTy, handlerTy, cfgPtrTy, strTy], outs := [handlerTy, errTy] }

/-- A `New` whose inputs are all correct but whose first output is not an
`http.Handler`. -/
def badOutFn : FnType :=
  { ins := [ctxTy, handlerTy, cfgPtrTy, strTy], outs := [intTy, errTy] }

theorem check_good : checkFunctionNewSignature goodNewFn cfgPtrTy = .ok () := rfl

/-- The signature check succeeds exactly on contract-conforming types. -/
theorem checkFunctionNewSignature_ok_iff (fn : FnType) (cfgTy : GoType) :
    checkFunctionNewSignature fn cfgTy = .ok () ↔ validNewSignature fn cfgTy = true := by
  unfold checkFunctionNewSignature validNewSignature
  rcases fn with ⟨ins, outs⟩
  dsimp only
  match ins with
  | [] => simp
  | [_] => simp
  | [_, _] => simp
  | [_, _, _] => simp
  | [i0, i1, i2, i3] =>
    match outs with
    | [] => dsimp only; split_ifs <;> simp
    | [_] => dsimp only; split_ifs <;> simp
    | [o0, o1] =>
      by_cases h0 : i0.implementsContext <;>
        by_cases h1 : i1.implementsHandler <;>
          by_cases h2 : assignableTo i2 cfgTy <;>
            by_cases h3 : i3.kindIsString <;>
              by_cases h4 : o0.implementsHandler <;>
                by_cases h5 : o1.implementsError <;> simp_all
    | _ :: _ :: _ :: _ => dsimp only; split_ifs <;> simp
  | _ :: _ :: _ :: _ :: _ :: _ => simp

/-- A signature whose inputs all satisfy the contract determines the
first four input types and their properties. -/
theorem validNewInputs_eq_true {fn : FnType} {cfgTy : GoType}
    (h : validNewInputs fn cfgTy = true) :
    ∃ i0 i1 i2 i3, fn.ins = [i0, i1, i2, i3] ∧ i0.implementsContext = true ∧
      i1.implementsHandler = true ∧ assignableTo i2 cfgTy = true ∧ i3.kindIsString = true := by
  unfold validNewInputs at h
  rcases fn with ⟨ins, outs⟩
  dsimp only at h ⊢
  match ins with
  | [] => simp at h
  | [_] => simp at h
  | [_, _] => simp at h
  | [_, _, _] => simp at h
  | [i0, i1, i2, i3] =>
    simp only [Bool.and_eq_true] at h
    exact ⟨i0, i1, i2, i3, rfl, h.1.1.1, h.1.1.2, h.1.2, h.2⟩
  | _ :: _ :: _ :: _ :: _ :: _ => simp at h

/-- C1, counterexample.  `badOutFn` deviates from the contract only in its
first OUTPUT type (all input positions are correct and there are exactly
two outputs), yet the signature check reports the deviation with the
message `invalid input arguments: ...`, which names the input direction,
not the output direction that actually failed. -/
theorem c1_signature_direction_counterexample :
    validNewInputs badOutFn cfgPtrTy = true ∧
    badOutFn.outs.length = 2 ∧
    checkFunctionNewSignature badOutFn cfgPtrTy =
      .error "invalid input arguments: the 1st argument must have the type http.Handler" ∧
    hasSubstr "invalid input arguments: the 1st argument must have the type http.Handler".data
      "output".data = false :=
  ⟨rfl, rfl, rfl, by decide⟩

/-- C1, amended.  The signature check succeeds exactly when the function
takes four arguments typed context / handler / assignable-to-config /
string and returns two values typed handler / error; any deviation yields
an invalid-signature error.  The error names the violated position, and
its direction label is `output` only for a wrong output count: a wrong
output value type is reported with an `invalid input arguments` message
(position correct, direction mislabelled). -/
theorem c1_checkFunctionNewSignature_amended (fn : FnType) (cfgTy : GoType) :
    (checkFunctionNewSignature fn cfgTy = .ok () ↔ validNewSignature fn cfgTy = true) ∧
    (validNewSignature fn cfgTy = false →
      ∃ m, checkFunctionNewSignature fn cfgTy = .error m) ∧
    (∀ o0 o1, fn.outs = [o0, o1] → validNewInputs fn cfgTy = true →
      o0.implementsHandler = false →
      checkFunctionNewSignature fn cfgTy =
        .error "invalid input arguments: the 1st argument must have the type http.Handler") ∧
    (∀ o0 o1, fn.outs = [o0, o1] → validNewInputs fn cfgTy = true →
      o0.implementsHandler = true → o1.implementsError = false →
      checkFunctionNewSignature fn cfgTy =
        .error "invalid input arguments: the 2nd argument must have the type error") ∧
    (validNewInputs fn cfgTy = true → fn.outs.length ≠ 2 →
      checkFunctionNewSignature fn cfgTy =
        .error ("invalid output arguments: got " ++ toString fn.outs.length ++
          " arguments expected 2")) := by
  refine ⟨checkFunctionNewSignature_ok_iff fn cfgTy, ?_, ?_, ?_, ?_⟩
  · intro h
    cases hc : checkFunctionNewSignature fn cfgTy with
    | ok u =>
      cases u
      rw [checkFunctionNewSignature_ok_iff] at hc
      rw [hc] at h
      exact absurd h (by simp)
    | error m => exact ⟨m, rfl⟩
  · intro o0 o1 houts hins h0
    obtain ⟨i0, i1, i2, i3, hi, p0, p1, p2, p3⟩ := validNewInputs_eq_true hins
    unfold checkFunctionNewSignature
    rw [hi, houts]
    simp [p0, p1, p2, p3, h0]
  · intro o0 o1 houts hins h0 h1
    obtain ⟨i0, i1, i2, i3, hi, p0, p1, p2, p3⟩ := validNewInputs_eq_true hins
    unfold checkFunctionNewSignature
    rw [hi, houts]
    simp [p0, p1, p2, p3, h0, h1]
  · intro hins hlen
    obtain ⟨i0, i1, i2, i3, hi, p0, p1, p2, p3⟩ := validNewInputs_eq_true hins
    unfold checkFunctionNewSignature
    rw [hi]
    rcases houts : fn.outs with _ | ⟨o0, _ | ⟨o1, rest⟩⟩
    · simp [p0, p1, p2, p3, houts]
    · simp [p0, p1, p2, p3, houts]
    · rcases rest with _ | ⟨o2, rest2⟩
      · exact absurd (by rw [houts]; rfl : fn.outs.length = 2) hlen
      · simp [p0, p1, p2, p3, houts]

/-- C1 witness: the amended theorem applied to the concrete deviating
signature `badOutFn`. -/
theorem c1_amended_witness :
    checkFunctionNewSignature badOutFn cfgPtrTy =
      .error "invalid input arguments: the 1st argument must have the type http.Handler" :=
  (c1_checkFunctionNewSignature_amended badOutFn cfgPtrTy).2.2.1 intTy errTy rfl rfl rfl

/-! ## The process environment and the sensitive-variable scrub

`dropSensitiveEnvVars` (pkg/core/scrapper.go, lines 903-926) walks
`os.Environ()`, backs up and unsets every variable whose lower-cased key
contains one of six sensitive substrings, and returns a tear-down closure
that re-sets the backed-up pairs.  The process environment is modelled as
an association list of `KEY`/`VALUE` pairs; `os.Getenv`, `os.Setenv` and
`os.Unsetenv` become `lookupEnv`, `setenv` and `unsetenv`. -/

/-- The process environment: a list of `KEY`/`VALUE` pairs. -/
abbrev Env := List (String × String)

/-- `os.Getenv`: the value of the first entry with the given key. -/
def lookupEnv (env : Env) (k : String) : Option String :=
  (env.find? (fun p => p.1 == k)).map (fun p => p.2)

/-- `os.Unsetenv`: remove every entry with the given key. -/
def unsetenv (env : Env) (k : String) : Env :=
  env.filter (fun p => p.1 != k)

/-- `os.Setenv`: bind `k` to `v` (observably: `lookupEnv` afterwards
returns `v` at `k` and is unchanged elsewhere). -/
def setenv (env : Env) (k v : String) : Env :=
  env.filter (fun p => p.1 != k) ++ [(k, v)]

/-- The key filter of `dropSensitiveEnvVars`: the lower-cased key contains
`token`, `password`, `username`, `_url`, `_host` or `_port`. -/
def sensitiveKey (k : String) : Bool :=
  let key := k.toLower
  strContains key "token" || strContains key "password" || strContains key "username" ||
    strContains key "_url" || strContains key "_host" || strContains key "_port"

/-- The loop of `dropSensitiveEnvVars`: iterate over the `os.Environ()`
snapshot `s`, unsetting each sensitive variable from the live environment
and recording the removed pair in the backup (Go stores it in the
`bckEnviron` map; the backup is kept as a list of pairs here). -/
def dropLoop : List (String × String) → Env → Env × List (String × String)
  | [], env => (env, [])
  | p :: rest, env =>
    if sensitiveKey p.1 then
      let r := dropLoop rest (unsetenv env p.1)
      (r.1, p :: r.2)
    else
      dropLoop rest env

/-- `dropSensitiveEnvVars`: scrub the environment, returning the scrubbed
environment together with the backup consumed by the tear-down closure. -/
def dropSensitiveEnvVars (env : Env) : Env × List (String × String) :=
  dropLoop env env

/-- The tear-down closure returned by `dropSensitiveEnvVars`: re-set every
backed-up pair. -/
def tearDown (bck : List (String × String)) (env : Env) : Env :=
  bck.foldl (fun e p => setenv e p.1 p.2) env

/-- The keys of an environment are pairwise distinct (as `os.Environ`
guarantees for a real process environment). -/
def keysNodup (env : Env) : Prop :=
  (env.map Prod.fst).Nodup

/-- A Go computation that either returns normally or panics; the panic
value is carried as its formatted rendering. -/
inductive GoResult (α : Type) where
  | ok (a : α)
  | panicked (v : String)
deriving Repr, DecidableEq

/-- The environment effect of `yaegiCheck` (pkg/core/scrapper.go, lines
709-731): scrub the sensitive variables, run the check body, and — by the
`defer tearDown()` — restore the backup whether the body returns (its
`Except` result) or panics (converted by the deferred `recover` into the
`panic from yaegi` error).  The body itself does not touch the
environment. -/
def yaegiCheckEnvRun (env : Env) (body : GoResult (Except String Unit)) :
    Env × Except String Unit :=
  let r := dropSensitiveEnvVars env
  match body with
  | .ok res => (tearDown r.2 r.1, res)
  | .panicked v => (tearDown r.2 r.1, .error ("panic from yaegi: " ++ v))

/-! Supporting lemmas about the association-list environment. -/

theorem find?_filter_of_imp {α : Type} (l : List α) (p q : α → Bool)
    (h : ∀ x ∈ l, p x = true → q x = true) :
    (l.filter q).find? p = l.find? p := by
  induction l with
  | nil => rfl
  | cons a t ih =>
    by_cases hq : q a = true
    · by_cases hp : p a = true
      · simp [List.filter_cons, hq, List.find?_cons, hp]
      · simp only [List.filter_cons, hq, if_true]
        rw [List.find?_cons_of_neg _ (by simp [hp]), List.find?_cons_of_neg _ (by simp [hp])]
        exact ih (fun x hx => h x (List.mem_cons_of_mem a hx))
    · have hp : p a = false := by
        by_contra hc
        exact hq (h a (List.mem_cons_self a t) (by simpa using hc))
      simp only [List.filter_cons, hq, if_false]
      rw [List.find?_cons_of_neg _ (by simp [hp])]
      exact ih (fun x hx => h x (List.mem_cons_of_mem a hx))

theorem lookup_setenv (e : Env) (k v k' : String) :
    lookupEnv (setenv e k v) k' = if k' = k then some v else lookupEnv e k' := by
  unfold lookupEnv setenv
  rw [List.find?_append]
  by_cases hk : k' = k
  · subst hk
    have hnone : (e.filter (fun p => p.1 != k')).find? (fun p => p.1 == k') = none := by
      rw [List.find?_eq_none]
      intro p hp
      have := List.of_mem_filter hp
      simpa using this
    simp [hnone]
  · have hfind : (e.filter (fun p => p.1 != k)).find? (fun p => p.1 == k') =
        e.find? (fun p => p.1 == k') := by
      apply find?_filter_of_imp
      intro x _ hx
      have hxk : x.1 = k' := by simpa using hx
      simp [hxk, hk]
    rw [hfind]
    have hsingle : ([(k, v)] : Env).find? (fun p => p.1 == k') = none := by
      rw [List.find?_eq_none]
      intro p hp
      simp only [List.mem_singleton] at hp
      subst hp
      simp [Ne.symm hk]
    cases hfe : e.find? (fun p => p.1 == k') with
    | none => simp [hsingle, hk]
    | some p => simp [hk]

theorem lookup_eq_none_of_not_mem_keys (e : Env) (k : String)
    (h : k ∉ e.map Prod.fst) : lookupEnv e k = none := by
  unfold lookupEnv
  have hfind : e.find? (fun p => p.1 == k) = none := by
    rw [List.find?_eq_none]
    intro p hp hbeq
    exact h (List.mem_map.mpr ⟨p, hp, by simpa using hbeq⟩)
  rw [hfind]
  rfl

theorem lookup_tearDown (bck : List (String × String)) (e : Env)
    (hnd : (bck.map Prod.fst).Nodup) (k : String) :
    lookupEnv (tearDown bck e) k =
      match lookupEnv bck k with
      | some v => some v
      | none => lookupEnv e k := by
  induction bck generalizing e with
  | nil => simp [tearDown, lookupEnv]
  | cons p rest ih =>
    obtain ⟨k0, v0⟩ := p
    simp only [List.map_cons, List.nodup_cons] at hnd
    have step : tearDown ((k0, v0) :: rest) e = tearDown rest (setenv e k0 v0) := rfl
    rw [step, ih (setenv e k0 v0) hnd.2]
    by_cases hk : k = k0
    · subst hk
      have hrest : lookupEnv rest k = none :=
        lookup_eq_none_of_not_mem_keys rest k hnd.1
      have hhead : lookupEnv ((k, v0) :: rest) k = some v0 := by
        unfold lookupEnv
        rw [List.find?_cons_of_pos _ (by simp)]
        rfl
      rw [hrest, hhead, lookup_setenv]
      simp
    · have hhead : lookupEnv ((k0, v0) :: rest) k = lookupEnv rest k := by
        unfold lookupEnv
        rw [List.find?_cons_of_neg _ (by simp [Ne.symm hk])]
      rw [hhead, lookup_setenv]
      cases hfr : lookupEnv rest k with
      | none => simp [hk]
      | some v => rfl

/-- The backup collected by the scrub is exactly the sensitive entries of
the environment snapshot, in order. -/
theorem dropLoop_snd (s : List (String × String)) (e : Env) :
    (dropLoop s e).2 = s.filter (fun p => sensitiveKey p.1) := by
  induction s generalizing e with
  | nil => rfl
  | cons p rest ih =>
    by_cases hs : sensitiveKey p.1 = true
    · simp [dropLoop, hs, List.filter_cons, ih]
    · simp only [Bool.not_eq_true] at hs
      simp [dropLoop, hs, List.filter_cons, ih]

/-- After the scrub loop over snapshot `s`, the live environment retains
exactly the entries whose key is not unset by a sensitive snapshot
entry. -/
theorem dropLoop_fst (s : List (String × String)) (e : Env) :
    (dropLoop s e).1 =
      e.filter (fun q => !(s.any (fun p => sensitiveKey p.1 && p.1 == q.1))) := by
  induction s generalizing e with
  | nil => simp [dropLoop]
  | cons p rest ih =>
    by_cases hs : sensitiveKey p.1 = true
    · have step : (dropLoop (p :: rest) e).1 = (dropLoop rest (unsetenv e p.1)).1 := by
        simp [dropLoop, hs]
      rw [step, ih, unsetenv, List.filter_filter]
      apply List.filter_congr
      intro a _
      by_cases hq : a.1 = p.1
      · simp [hq, hs, List.any_cons]
      · have h1 : (a.1 != p.1) = true := by simpa using hq
        have h2 : (p.1 == a.1) = false := by simpa using Ne.symm hq
        simp [List.any_cons, h1, h2]
    · simp only [Bool.not_eq_true] at hs
      have step : (dropLoop (p :: rest) e).1 = (dropLoop rest e).1 := by
        simp [dropLoop, hs]
      rw [step, ih]
      have hfun :
          (fun q : String × String => !(rest.any fun r => sensitiveKey r.1 && r.1 == q.1)) =
          (fun q : String × String =>
            !((p :: rest).any fun r => sensitiveKey r.1 && r.1 == q.1)) := by
        funext q
        simp [List.any_cons, hs]
      rw [hfun]

/-- During the check, a sensitive key reads as absent and every other key
reads unchanged. -/
theorem lookup_scrubbed (env : Env) (k : String) :
    lookupEnv (dropSensitiveEnvVars env).1 k =
      if sensitiveKey k then none else lookupEnv env k := by
  unfold dropSensitiveEnvVars
  rw [dropLoop_fst]
  by_cases hs : sensitiveKey k = true
  · rw [if_pos hs]
    unfold lookupEnv
    have hfind :
        (env.filter (fun q => !(env.any fun p => sensitiveKey p.1 && p.1 == q.1))).find?
          (fun p => p.1 == k) = none := by
      rw [List.find?_eq_none]
      intro p hp hbeq
      have hmem := List.mem_filter.mp hp
      have hpk : p.1 = k := by simpa using hbeq
      have hany : env.any (fun r => sensitiveKey r.1 && r.1 == p.1) = true :=
        List.any_eq_true.mpr ⟨p, hmem.1, by simp [hpk, hs]⟩
      rw [hany] at hmem
      simpa using hmem.2
    rw [hfind]
    rfl
  · rw [if_neg hs]
    simp only [Bool.not_eq_true] at hs
    unfold lookupEnv
    rw [find?_filter_of_imp]
    intro x hx hbeq
    have hxk : x.1 = k := by simpa using hbeq
    have hany : (env.any fun p => sensitiveKey p.1 && p.1 == x.1) = false := by
      rw [List.any_eq_false]
      intro r hr
      by_cases hrk : r.1 = x.1
      · simp [hrk, hxk, hs]
      · simp [hrk]
    rw [hany]
    rfl

/-- Looking a sensitive key up in the backup agrees with the original
environment; a non-sensitive key is absent from the backup. -/
theorem lookup_backup (env : Env) (k : String) :
    lookupEnv (env.filter fun p => sensitiveKey p.1) k =
      if sensitiveKey k then lookupEnv env k else none := by
  by_cases hs : sensitiveKey k = true
  · rw [if_pos hs]
    unfold lookupEnv
    rw [find?_filter_of_imp]
    intro x _ hbeq
    have hxk : x.1 = k := by simpa using hbeq
    rw [hxk]
    exact hs
  · rw [if_neg hs]
    simp only [Bool.not_eq_true] at hs
    unfold lookupEnv
    have hfind :
        (env.filter fun p => sensitiveKey p.1).find? (fun p => p.1 == k) = none := by
      rw [List.find?_eq_none]
      intro p hp hbeq
      have hmem := List.mem_filter.mp hp
      have hpk : p.1 = k := by simpa using hbeq
      rw [hpk] at hmem
      rw [hs] at hmem
      simpa using hmem.2
    rw [hfind]
    rfl

/-- C2.  Before interpretation every environment variable whose
lower-cased key contains `token`, `password`, `username`, `_url`, `_host`
or `_port` is removed and every other variable is untouched; after the
check body finishes — normally or by panic — the deferred tear-down
restores the environment to exactly its prior state at every key. -/
theorem c2_env_scrub_and_restore (env : Env) (body : GoResult (Except String Unit))
    (k : String) (h : keysNodup env) :
    (lookupEnv (dropSensitiveEnvVars env).1 k =
      if sensitiveKey k then none else lookupEnv env k) ∧
    lookupEnv (yaegiCheckEnvRun env body).1 k = lookupEnv env k := by
  refine ⟨lookup_scrubbed env k, ?_⟩
  have hbck : (dropSensitiveEnvVars env).2 = env.filter (fun p => sensitiveKey p.1) :=
    dropLoop_snd env env
  have hnodup : ((env.filter fun p => sensitiveKey p.1).map Prod.fst).Nodup :=
    ((List.filter_sublist env).map Prod.fst).nodup h
  have hfinal :
      (yaegiCheckEnvRun env body).1 =
        tearDown (dropSensitiveEnvVars env).2 (dropSensitiveEnvVars env).1 := by
    unfold yaegiCheckEnvRun
    cases body <;> rfl
  rw [hfinal, hbck, lookup_tearDown _ _ hnodup, lookup_backup, lookup_scrubbed]
  by_cases hs : sensitiveKey k = true
  · rw [if_pos hs, if_pos hs]
    cases hv : lookupEnv env k <;> rfl
  · rw [if_neg hs, if_neg hs]

/-- C2 witness: a concrete environment with one sensitive and one plain
variable, restored around a panicking check body. -/
theorem c2_env_scrub_witness :
    keysNodup [("GITHUB_TOKEN", "secret"), ("HOME", "/root")] ∧
    (lookupEnv (dropSensitiveEnvVars [("GITHUB_TOKEN", "secret"), ("HOME", "/root")]).1
        "GITHUB_TOKEN" =
      if sensitiveKey "GITHUB_TOKEN" then none
      else lookupEnv [("GITHUB_TOKEN", "secret"), ("HOME", "/root")] "GITHUB_TOKEN") ∧
    lookupEnv
        (yaegiCheckEnvRun [("GITHUB_TOKEN", "secret"), ("HOME", "/root")]
          (GoResult.panicked "boom")).1 "GITHUB_TOKEN" =
      lookupEnv [("GITHUB_TOKEN", "secret"), ("HOME", "/root")] "GITHUB_TOKEN" := by
  refine ⟨by unfold keysNodup; decide, ?_⟩
  have h := c2_env_scrub_and_restore [("GITHUB_TOKEN", "secret"), ("HOME", "/root")]
    (GoResult.panicked "boom") "GITHUB_TOKEN" (by unfold keysNodup; decide)
  exact ⟨h.1, h.2⟩

/-! ## The manifest and the interpreted-code (Yaegi) check

The plugin manifest (`Manifest`, pkg/core). The snapshot carries several
revisions of the struct; the embedding carries the union of their fields.
The `runtime` key described by the specification does not appear in any
revision of the struct present in the snapshot and is included here,
unread by any embedded function, so that claims about it can be stated. -/

/-- The plugin manifest.  `importPath` is the manifest's `import` key and
`useRaw` its `useUnsafe` key (renamed; they keep their YAML meaning).
`testData` is the `map[string]interface{}` test-data document: `none` is
Go's nil map, and values are abstracted to strings. -/
structure Manifest where
  displayName : String := ""
  type : String := ""
  importPath : String := ""
  basePkg : String := ""
  compatibility : String := ""
  summary : String := ""
  iconPath : String := ""
  bannerPath : String := ""
  testData : Option (List (String × String)) := none
  wasmPath : String := ""
  useRaw : Bool := false
  runtime : String := ""
deriving Repr, DecidableEq

/-- `typeMiddleware` (pkg/core/scrapper.go). -/
def typeMiddleware : String := "middleware"

/-- `typeProvider` (pkg/core/scrapper.go). -/
def typeProvider : String := "provider"

/-- A `reflect.Value` returned by the constructor call, as the check
consumes it: its `%T` type name, whether its interface value satisfies
`http.Handler`, and — for the second result — the non-nil error it
carries, if any. -/
structure RVal where
  typeName : String := ""
  isHandler : Bool := false
  asErr : Option String := none
deriving Repr, DecidableEq

/-- The observable behaviour of the sandboxed interpreter on one plugin:
the outcome of each `EvalWithContext` step (which may fail, or panic
inside the interpreter), the decode of `testData` into the config value,
the reflect type of `CreateConfig`'s result and of `New`, and the outcome
of calling `New` (its two results, or a panic inside plugin code). -/
structure MiddlewareBehavior where
  load : GoResult (Except String Unit)
  createConfig : GoResult (Except String GoType)
  decode : GoResult (Except String Unit)
  evalNew : GoResult (Except String FnType)
  callNew : GoResult (RVal × RVal)
deriving Repr

/-- Translation of `safeFnCall` (pkg/core/scrapper.go, lines 798-808):
`fn.Call(args)` runs under a deferred `recover`, so the function itself
never panics — a panic in the plugin's constructor becomes the
`panic during the call of the function` error. -/
def safeFnCall (call : GoResult (RVal × RVal)) : Except String (RVal × RVal) :=
  match call with
  | .ok r => .ok r
  | .panicked v => .error ("panic during the call of the function: " ++ v)

/-- Translation of `yaegiMiddlewareCheck` (pkg/core/scrapper.go, lines
733-796): import the plugin, evaluate `CreateConfig()`, decode the test
data, resolve `New`, check its signature, and — unless `skipNew` — call
it through `safeFnCall` and validate its two results.  An interpreter
panic in an `Eval` step propagates (this function installs no `recover`
of its own); error messages are reproduced verbatim, with the 10-second
timeout rendered `10s` as `fmt` does. -/
def yaegiMiddlewareCheck (b : MiddlewareBehavior) (skipNew : Bool) :
    GoResult (Except String Unit) :=
  match b.load with
  | .panicked v => .panicked v
  | .ok (.error e) =>
    .ok (.error
      ("the load of the plugin takes too much time(10s), or an error, inside the plugin, occurs during the load: " ++ e))
  | .ok (.ok _) =>
  match b.createConfig with
  | .panicked v => .panicked v
  | .ok (.error e) => .ok (.error ("failed to eval `CreateConfig` function: " ++ e))
  | .ok (.ok cfgTy) =>
  match b.decode with
  | .panicked v => .panicked v
  | .ok (.error e) => .ok (.error e)
  | .ok (.ok _) =>
  match b.evalNew with
  | .panicked v => .panicked v
  | .ok (.error e) => .ok (.error ("failed to eval `New` function: " ++ e))
  | .ok (.ok fnTy) =>
  match checkFunctionNewSignature fnTy cfgTy with
  | .error e => .ok (.error ("the signature of the function `New` is invalid: " ++ e))
  | .ok _ =>
    if skipNew then .ok (.ok ())
    else
      match safeFnCall b.callNew with
      | .error e => .ok (.error ("the function `New` of test produce a panic: " ++ e))
      | .ok rs =>
        match rs.2.asErr with
        | some e => .ok (.error ("failed to create a new plugin instance: " ++ e))
        | none =>
          if !rs.1.isHandler then .ok (.error ("invalid handler type: " ++ rs.1.typeName))
          else .ok (.ok ())

/-- The body of `yaegiCheck`, after the environment scrub: dispatch on the
manifest type.  The snapshot carries two revisions of `yaegiCheck`
(pkg/core/scrapper.go lines 709-731, and the later revision concatenated
into pkg/meter/meter.go, lines 182-208, exercised by `TestUnsafe`); they
differ only in the `useUnsafe` skip of the later revision, embedded here:
a `middleware` manifest with the flag set is not interpreted at all. -/
def yaegiCheckBody (m : Manifest) (skipNewCall : Bool) (b : MiddlewareBehavior) :
    GoResult (Except String Unit) :=
  if m.type == typeMiddleware then
    if m.useRaw then .ok (.ok ())
    else yaegiMiddlewareCheck b skipNewCall
  else if m.type == typeProvider then
    .ok (.ok ())
  else
    .ok (.error ("unsupported type: " ++ m.type))

/-- `yaegiCheck`: the body runs under a top-level deferred `recover`, so
any panic reaching it — from the interpreter or from plugin code — is
converted into the `panic from yaegi` error and the function returns
normally.  (Its environment effect is modelled by `yaegiCheckEnvRun`.) -/
def yaegiCheck (m : Manifest) (skipNewCall : Bool) (b : MiddlewareBehavior) :
    GoResult (Except String Unit) :=
  match yaegiCheckBody m skipNewCall b with
  | .ok r => .ok r
  | .panicked v => .ok (.error ("panic from yaegi: " ++ v))

/-- A well-formed `middleware` manifest (the minimal fixture shape). -/
def mwManifest : Manifest :=
  { displayName := "Demo", type := "middleware", importPath := "github.com/o/r/pkg",
    summary := "demo", testData := some [("Headers", "Foo")] }

/-- `mwManifest` with the `useUnsafe` escape hatch set. -/
def mwManifestRaw : Manifest :=
  { mwManifest with useRaw := true }

/-- A behaviour whose every stage succeeds but whose constructor panics
with value `boom`. -/
def panickingNewBehavior : MiddlewareBehavior :=
  { load := .ok (.ok ()), createConfig := .ok (.ok cfgPtrTy), decode := .ok (.ok ()),
    evalNew := .ok (.ok goodNewFn), callNew := .panicked "boom" }

/-- A behaviour rejected by the interpreter at the load step (as an
`unsafe`-importing plugin is). -/
def loadFailBehavior : MiddlewareBehavior :=
  { load := .ok (.error "unable to find source related to: unsafe"),
    createConfig := .ok (.ok cfgPtrTy), decode := .ok (.ok ()),
    evalNew := .ok (.ok goodNewFn), callNew := .ok ({ isHandler := true }, {}) }

/-- C3.  The interpreted-code verification never lets a panic escape: the
result of `yaegiCheck` is always a normal return; a panic reaching the
top-level guard is converted into the `panic from yaegi` error carrying
the panic value; and a panic inside the constructor call is caught by
`safeFnCall` and surfaces as the `produce a panic` error carrying the
panic value. -/
theorem c3_yaegiCheck_panic_contained (m : Manifest) (skip : Bool)
    (b : MiddlewareBehavior) :
    (∃ r : Except String Unit, yaegiCheck m skip b = .ok r) ∧
    (∀ v, yaegiCheckBody m skip b = .panicked v →
      yaegiCheck m skip b = .ok (.error ("panic from yaegi: " ++ v))) ∧
    (∀ v cfgTy fnTy, m.type = typeMiddleware → m.useRaw = false → skip = false →
      b.load = .ok (.ok ()) → b.createConfig = .ok (.ok cfgTy) →
      b.decode = .ok (.ok ()) → b.evalNew = .ok (.ok fnTy) →
      checkFunctionNewSignature fnTy cfgTy = .ok () → b.callNew = .panicked v →
      yaegiCheck m skip b =
        .ok (.error
          ("the function `New` of test produce a panic: panic during the call of the function: "
            ++ v))) := by
  refine ⟨?_, ?_, ?_⟩
  · unfold yaegiCheck
    cases yaegiCheckBody m skip b with
    | ok r => exact ⟨r, rfl⟩
    | panicked v => exact ⟨.error ("panic from yaegi: " ++ v), rfl⟩
  · intro v h
    unfold yaegiCheck
    rw [h]
  · intro v cfgTy fnTy htype hraw hskip hload hcc hdec hnew hsig hcall
    unfold yaegiCheck yaegiCheckBody
    rw [htype, hraw, hskip]
    unfold yaegiMiddlewareCheck
    rw [hload, hcc, hdec, hnew, hcall]
    dsimp only
    rw [hsig]
    simp [safeFnCall]
    rw [← String.append_assoc]
    rfl

/-- C3 witness: the theorem applied to a concrete plugin whose
constructor panics with value `boom`. -/
theorem c3_yaegiCheck_panic_contained_witness :
    yaegiCheck mwManifest false panickingNewBehavior =
      .ok (.error
        ("the function `New` of test produce a panic: panic during the call of the function: boom")) :=
  (c3_yaegiCheck_panic_contained mwManifest false panickingNewBehavior).2.2
    "boom" cfgPtrTy goodNewFn rfl rfl rfl rfl rfl rfl rfl rfl rfl

/-- C4.  A `middleware` manifest with the `useUnsafe` flag set skips
interpretation and constructor invocation entirely — `yaegiCheck`
succeeds for every interpreter behaviour, including ones that fail or
panic — while the same plugin with the flag unset fails when the
interpreter rejects it at load. -/
theorem c4_useUnsafe_skips_invocation (m : Manifest) (skip : Bool)
    (b : MiddlewareBehavior) :
    (m.type = typeMiddleware → m.useRaw = true →
      yaegiCheck m skip b = .ok (.ok ())) ∧
    (∀ e, m.type = typeMiddleware → m.useRaw = false → b.load = .ok (.error e) →
      yaegiCheck m skip b =
        .ok (.error
          ("the load of the plugin takes too much time(10s), or an error, inside the plugin, occurs during the load: "
            ++ e))) := by
  constructor
  · intro htype hraw
    unfold yaegiCheck yaegiCheckBody
    rw [htype, hraw]
    simp
  · intro e htype hraw hload
    unfold yaegiCheck yaegiCheckBody
    rw [htype, hraw]
    unfold yaegiMiddlewareCheck
    rw [hload]
    simp

/-- C4 witness: the theorem applied to a concrete interpreter-rejected
plugin, with and without the escape hatch. -/
theorem c4_useUnsafe_skips_invocation_witness :
    yaegiCheck mwManifestRaw false loadFailBehavior = .ok (.ok ()) ∧
    yaegiCheck mwManifest false loadFailBehavior =
      .ok (.error
        ("the load of the plugin takes too much time(10s), or an error, inside the plugin, occurs during the load: unable to find source related to: unsafe")) :=
  ⟨(c4_useUnsafe_skips_invocation mwManifestRaw false loadFailBehavior).1 rfl rfl,
   (c4_useUnsafe_skips_invocation mwManifest false loadFailBehavior).2
     "unable to find source related to: unsafe" rfl rfl rfl⟩

/-- C10.  A `provider` manifest passes `yaegiCheck` unconditionally and
the result never depends on the interpreter's behaviour (no
interpretation, no constructor invocation); every type other than
`middleware` and `provider` is rejected with the `unsupported type`
error.  Only `middleware` manifests reach the interpreter. -/
theorem c10_provider_not_interpreted (m : Manifest) (skip : Bool)
    (b b2 : MiddlewareBehavior) :
    (m.type = typeProvider → yaegiCheck m skip b = .ok (.ok ())) ∧
    (m.type ≠ typeMiddleware → yaegiCheck m skip b = yaegiCheck m skip b2) ∧
    (m.type ≠ typeMiddleware → m.type ≠ typeProvider →
      yaegiCheck m skip b = .ok (.error ("unsupported type: " ++ m.type))) := by
  refine ⟨?_, ?_, ?_⟩
  · intro htype
    unfold yaegiCheck yaegiCheckBody
    rw [htype]
    simp [typeProvider, typeMiddleware]
  · intro htype
    have hne : (m.type == typeMiddleware) = false := by
      simpa using htype
    unfold yaegiCheck yaegiCheckBody
    rw [hne]
    simp
  · intro hmw hprov
    have hne1 : (m.type == typeMiddleware) = false := by simpa using hmw
    have hne2 : (m.type == typeProvider) = false := by simpa using hprov
    unfold yaegiCheck yaegiCheckBody
    rw [hne1, hne2]
    simp

/-- C10 witness: a concrete `provider` manifest, checked against two
different interpreter behaviours, and a concrete unsupported type. -/
theorem c10_provider_not_interpreted_witness :
    yaegiCheck { mwManifest with type := "provider" } false loadFailBehavior = .ok (.ok ()) ∧
    yaegiCheck { mwManifest with type := "provider" } false loadFailBehavior =
      yaegiCheck { mwManifest with type := "provider" } false panickingNewBehavior ∧
    yaegiCheck { mwManifest with type := "gateway" } false loadFailBehavior =
      .ok (.error "unsupported type: gateway") := by
  refine ⟨?_, ?_, ?_⟩
  · exact (c10_provider_not_interpreted { mwManifest with type := "provider" } false
      loadFailBehavior loadFailBehavior).1 rfl
  · exact (c10_provider_not_interpreted { mwManifest with type := "provider" } false
      loadFailBehavior panickingNewBehavior).2.1 (by decide)
  · exact (c10_provider_not_interpreted { mwManifest with type := "gateway" } false
      loadFailBehavior loadFailBehavior).2.2 (by decide) (by decide)

/-! ## Manifest loading (validation step)

`loadManifestContent` (pkg/core/scrapper.go, lines 408-449) parses the
manifest document and validates it.  The two YAML/paerser parses are
external; the embedding takes the already-unmarshalled `Manifest` and the
result of the stricter second pass over `testData`, and performs the
validation the function does on them.  All three revisions of this
function in the snapshot validate identically. -/

/-- `len(m.TestData)`: a nil map has length zero. -/
def testDataLen (m : Manifest) : Nat :=
  (m.testData.getD []).length

/-- Translation of the validation logic of `loadManifestContent`:
re-decode `testData` through the stricter parser when non-empty (`reparse`
is that second parse's outcome), then check the type enum, `import`,
`displayName`, `summary` and `testData` presence, with the verbatim error
messages, in source order. -/
def loadManifestContent (m : Manifest)
    (reparse : Except String (Option (List (String × String)))) :
    Except String Manifest :=
  let step : Except String Manifest :=
    if testDataLen m > 0 then
      match reparse with
      | .error e => .error ("failed to read testdata from manifest: " ++ e)
      | .ok td => .ok { m with testData := td }
    else
      .ok m
  match step with
  | .error e => .error e
  | .ok m1 =>
    if m1.type == typeMiddleware || m1.type == typeProvider then
      if m1.importPath == "" then .error "missing import"
      else if m1.displayName == "" then .error "missing DisplayName"
      else if m1.summary == "" then .error "missing Summary"
      else if m1.testData == none then .error "missing TestData"
      else .ok m1
    else
      .error ("unsupported type: " ++ m1.type)

/-- A syntactically complete wasm-runtime manifest with an empty
`import`. -/
def wasmManifestNoImport : Manifest :=
  { displayName := "Demo", type := "middleware", importPath := "", summary := "demo",
    testData := some [("A", "B")], runtime := "wasm" }

/-- C5, counterexample.  A manifest whose `runtime` is `wasm` and whose
`import` is empty is still rejected with the `missing import` error: the
loader never consults the runtime field. -/
theorem c5_wasm_import_counterexample :
    wasmManifestNoImport.runtime = "wasm" ∧
    loadManifestContent wasmManifestNoImport (.ok (some [("A", "B")])) =
      .error "missing import" :=
  ⟨rfl, rfl⟩

/-- C5, amended.  The loader rejects a missing/empty `import`
unconditionally — for every runtime value, including `wasm`: whenever the
type is one of the two known values and the `testData` re-parse passes,
an empty `import` yields the `missing import` error, and a successful
load implies the `import` field is non-empty. -/
theorem c5_loadManifestContent_amended (m : Manifest)
    (r : Except String (Option (List (String × String)))) :
    ((m.type = typeMiddleware ∨ m.type = typeProvider) →
      (testDataLen m > 0 → ∃ td, r = .ok td) → m.importPath = "" →
      loadManifestContent m r = .error "missing import") ∧
    (∀ m2, loadManifestContent m r = .ok m2 → m.importPath ≠ "") := by
  constructor
  · intro htype hrep himp
    by_cases hlen : testDataLen m > 0
    · obtain ⟨td, htd⟩ := hrep hlen
      rcases htype with h | h <;>
        simp [loadManifestContent, hlen, htd, h, himp, typeMiddleware, typeProvider]
    · rcases htype with h | h <;>
        simp [loadManifestContent, hlen, h, himp, typeMiddleware, typeProvider]
  · intro m2 hok
    intro himp
    by_cases hlen : testDataLen m > 0 <;> cases r <;>
      by_cases ht1 : m.type == typeMiddleware <;>
        by_cases ht2 : m.type == typeProvider <;>
          simp_all [loadManifestContent, himp]

/-- C5 witness: the amended theorem at a concrete interpreted-runtime
manifest with an empty import, and at the successful load of a complete
manifest. -/
theorem c5_loadManifestContent_amended_witness :
    loadManifestContent { wasmManifestNoImport with runtime := "" }
        (.ok (some [("A", "B")])) = .error "missing import" ∧
    mwManifest.importPath ≠ "" := by
  constructor
  · exact (c5_loadManifestContent_amended { wasmManifestNoImport with runtime := "" }
      (.ok (some [("A", "B")]))).1 (Or.inl rfl) (fun _ => ⟨some [("A", "B")], rfl⟩) rfl
  · exact (c5_loadManifestContent_amended mwManifest
      (.ok (some [("Headers", "Foo")]))).2 mwManifest rfl

/-! ## The dispatcher's skip decision and the store step

`process` (pkg/core/scrapper.go, lines 273-291) consults the catalog
before verifying: if a record exists for the module name and both its
latest version and its star count match the freshly observed values, the
repository is skipped by returning a nil record, which makes `store`
(lines 536-584) a no-op. -/

/-- The catalog-bound plugin record (internal/plugin/plugin.go), with
`Versions` and `Snippet` kept abstract as rendered strings. -/
structure PluginRec where
  id : String := ""
  name : String := ""
  repoName : String := ""
  displayName : String := ""
  author : String := ""
  type : String := ""
  importPath : String := ""
  compatibility : String := ""
  summary : String := ""
  iconURL : String := ""
  bannerURL : String := ""
  readme : String := ""
  latestVersion : String := ""
  versions : List String := []
  stars : Int := 0
  snippet : String := ""
  createdAt : String := ""
deriving Repr, DecidableEq

/-- `cmp.Equal(data, prev, cmpopts.IgnoreFields(plugin.Plugin{}, "ID",
"CreatedAt"))`: field-by-field equality excluding identity and creation
time. -/
def eqIgnoreIdCreatedAt (a b : PluginRec) : Bool :=
  a.name == b.name && a.repoName == b.repoName && a.displayName == b.displayName &&
    a.author == b.author && a.type == b.type && a.importPath == b.importPath &&
    a.compatibility == b.compatibility && a.summary == b.summary &&
    a.iconURL == b.iconURL && a.bannerURL == b.bannerURL && a.readme == b.readme &&
    a.latestVersion == b.latestVersion && a.versions == b.versions &&
    a.stars == b.stars && a.snippet == b.snippet

/-- The skip decision of `process`: `GetByName` succeeded with a non-nil
record whose `LatestVersion` equals the freshly observed tag and whose
`Stars` equals the freshly observed star count. -/
def shouldSkipVerification (prevRes : Except String (Option PluginRec))
    (latestVersion : String) (stars : Int) : Bool :=
  match prevRes with
  | .ok (some prev) => prev.latestVersion == latestVersion && prev.stars == stars
  | _ => false

/-- An error returned by the plugin-catalog client
(internal/plugin/client.go `APIError`). -/
structure CatalogErr where
  statusCode : Nat
  message : String
deriving Repr, DecidableEq

/-- The catalog mutation performed by one `store` call. -/
inductive StoreAction where
  | noop
  | created
  | updated
deriving Repr, DecidableEq

/-- Translation of `store` (pkg/core/scrapper.go, lines 536-584): a nil
record is a no-op; a not-found (404) previous record leads to `Create`;
an equal record (ignoring `ID`/`CreatedAt`) is a no-op; otherwise
`Update`.  Other client errors surface as the `API error` failure. -/
def store (data : Option PluginRec) (prevRes : Except CatalogErr PluginRec) :
    Except String StoreAction :=
  match data with
  | none => .ok .noop
  | some d =>
    match prevRes with
    | .error e =>
      if e.statusCode == 404 then .ok .created
      else .error ("API error on " ++ d.name ++ ": " ++ e.message)
    | .ok prev =>
      if eqIgnoreIdCreatedAt d prev then .ok .noop
      else .ok .updated

/-- C6.  Verification is skipped exactly when a catalog record exists for
the module name and both its stored latest version and star count equal
the freshly observed values; if either differs the skip is never taken;
and a skipped repository performs no catalog create or update (the nil
record makes `store` a no-op). -/
theorem c6_skip_iff_version_and_stars_match
    (prevRes : Except String (Option PluginRec)) (v : String) (st : Int) :
    (shouldSkipVerification prevRes v st = true ↔
      ∃ prev, prevRes = .ok (some prev) ∧ prev.latestVersion = v ∧ prev.stars = st) ∧
    (∀ prev, prevRes = .ok (some prev) → prev.latestVersion ≠ v ∨ prev.stars ≠ st →
      shouldSkipVerification prevRes v st = false) ∧
    (∀ pr : Except CatalogErr PluginRec, store none pr = .ok .noop) := by
  refine ⟨?_, ?_, fun _ => rfl⟩
  · constructor
    · intro h
      match hp : prevRes with
      | .ok (some prev) =>
        unfold shouldSkipVerification at h
        simp only [Bool.and_eq_true, beq_iff_eq] at h
        exact ⟨prev, rfl, h.1, h.2⟩
      | .ok none => simp [shouldSkipVerification] at h
      | .error e => simp [shouldSkipVerification] at h
    · rintro ⟨prev, hp, hv, hs⟩
      rw [hp]
      unfold shouldSkipVerification
      simp [hv, hs]
  · intro prev hp hne
    rw [hp]
    unfold shouldSkipVerification
    rcases hne with h | h <;> simp [h]

/-- C6 witness: a concrete catalog record differing in star count is not
skipped. -/
theorem c6_skip_iff_version_and_stars_match_witness :
    shouldSkipVerification
      (.ok (some { name := "github.com/o/r", latestVersion := "v1.1.0", stars := 7 }))
      "v1.1.0" 9 = false :=
  (c6_skip_iff_version_and_stars_match
    (.ok (some { name := "github.com/o/r", latestVersion := "v1.1.0", stars := 7 }))
    "v1.1.0" 9).2.1
    { name := "github.com/o/r", latestVersion := "v1.1.0", stars := 7 }
    rfl (Or.inr (by decide))

/-! ## WASM release-archive verification

`verifyZip` and `getWasmPath` (pkg/core/wasm.go, lines 76-138 and
164-175).  `filepath.IsLocal` is embedded by its Unix implementation
(lexical analysis: not absolute, not empty, and after cleaning not `..`
or `../`-prefixed), including `path.Clean`. -/

/-- Split a character list on a separator, `strings.Split`-style (an
empty input yields one empty field). -/
def splitOnChar (sep : Char) : List Char → List (List Char)
  | [] => [[]]
  | c :: rest =>
    if c == sep then [] :: splitOnChar sep rest
    else
      match splitOnChar sep rest with
      | [] => [[c]]
      | f :: fs => (c :: f) :: fs

/-- One step of `path.Clean`'s element processing: skip empty and `.`
elements, let `..` back-track (or accumulate at the front of a relative
path, or vanish at the root of a rooted one), and push anything else. -/
def cleanPush (rooted : Bool) (stack : List (List Char)) (part : List Char) :
    List (List Char) :=
  if part.isEmpty || part == ['.'] then stack
  else if part == ['.', '.'] then
    match stack with
    | [] => if rooted then [] else [['.', '.']]
    | top :: rest => if top == ['.', '.'] then part :: stack else rest
  else part :: stack

/-- Join path elements with `/`. -/
def joinSlash : List (List Char) → List Char
  | [] => []
  | [x] => x
  | x :: xs => x ++ '/' :: joinSlash xs

/-- `path.Clean` on characters: process the slash-separated elements with
`cleanPush` and re-join, yielding `.` (or `/`) for an emptied path. -/
def pathCleanChars (p : List Char) : List Char :=
  let rooted : Bool :=
    match p with
    | '/' :: _ => true
    | _ => false
  let stack := (splitOnChar '/' p).foldl (cleanPush rooted) []
  let out := joinSlash stack.reverse
  if out.isEmpty then (if rooted then ['/'] else ['.'])
  else if rooted then '/' :: out
  else out

/-- `filepath.IsLocal` (Unix): false for the empty or absolute path;
otherwise clean the path if it has `.`/`..` elements and reject `..` and
`../...`. -/
def isLocalChars (p : List Char) : Bool :=
  match p with
  | [] => false
  | '/' :: _ => false
  | _ =>
    let hasDots := (splitOnChar '/' p).any (fun part => part == ['.'] || part == ['.', '.'])
    let q := if hasDots then pathCleanChars p else p
    if q == ['.', '.'] then false
    else if ['.', '.', '/'].isPrefixOf q then false
    else true

/-- `filepath.IsLocal` on strings. -/
def isLocal (s : String) : Bool :=
  isLocalChars s.data

/-- `wasmFile` (pkg/core/wasm.go): the default artifact filename. -/
def wasmFileName : String := "plugin.wasm"

/-- `manifestFile` (pkg/core/scrapper.go): the manifest filename looked
for inside the archive. -/
def manifestFileName : String := ".traefik.yml"

/-- Translation of `getWasmPath` (pkg/core/wasm.go, lines 164-175):
default the path, then require it to be local to the archive root. -/
def getWasmPath (m : Manifest) : Except String String :=
  let wasmPath := if m.wasmPath == "" then wasmFileName else m.wasmPath
  if !(isLocal wasmPath) then .error "wasmPath must be a local path"
  else .ok wasmPath

/-- The observable steps of `verifyZip`, in order of occurrence. -/
inductive WasmEvent where
  | download
  | readBody
  | openZip
  | scanEntries
  | checkMiddleware
deriving Repr, DecidableEq

/-- The outcomes of the archive-fetching effects of `verifyZip`:
`http.Get`, `io.ReadAll` of the body, and `zip.NewReader` (yielding the
entry names). -/
structure ArchiveFetch where
  httpGet : Except String Unit
  readBody : Except String Unit
  unzip : Except String (List String)
deriving Repr

/-- Translation of `verifyZip` (pkg/core/wasm.go, lines 76-138), with its
event trace made explicit: the asset is downloaded, read and unzipped
FIRST; only then is `getWasmPath` consulted, the entry list scanned for
the artifact and the manifest, and — for `middleware` manifests — the
sandboxed instantiation (`checkWasmMiddleware`, abstracted as `mwCheck`)
attempted. -/
def verifyZip (f : ArchiveFetch) (m : Manifest) (mwCheck : Except String Unit) :
    List WasmEvent × Except String Unit :=
  match f.httpGet with
  | .error e => ([.download], .error ("failed to download asset: " ++ e))
  | .ok _ =>
  match f.readBody with
  | .error e => ([.download, .readBody], .error ("failed to read asset body: " ++ e))
  | .ok _ =>
  match f.unzip with
  | .error e => ([.download, .readBody, .openZip], .error ("failed to unzip archive: " ++ e))
  | .ok entries =>
    match getWasmPath m with
    | .error e => ([.download, .readBody, .openZip], .error e)
    | .ok wasmPath =>
      let foundWasm := entries.contains wasmPath
      let foundManifest := entries.contains manifestFileName
      let pre : List WasmEvent := [.download, .readBody, .openZip, .scanEntries]
      if !foundWasm then (pre, .error ("failed to find " ++ wasmPath))
      else if !foundManifest then (pre, .error ("failed to find " ++ manifestFileName))
      else if m.type == typeMiddleware then
        match mwCheck with
        | .error e =>
          (pre ++ [.checkMiddleware], .error ("failed to check wasm middleware: " ++ e))
        | .ok _ => (pre ++ [.checkMiddleware], .ok ())
      else if m.type == typeProvider then (pre, .ok ())
      else (pre, .error ("unsupported type: " ++ m.type))

/-- A manifest whose `wasmPath` traverses out of the archive root. -/
def traversalManifest : Manifest :=
  { mwManifest with wasmPath := "../plugin.wasm" }

/-- A fully successful archive fetch containing the default artifact and
the manifest. -/
def fetchOk : ArchiveFetch :=
  { httpGet := .ok (), readBody := .ok (), unzip := .ok ["plugin.wasm", ".traefik.yml"] }

/-- C7, counterexample.  A parent-directory `wasmPath` is rejected with
the wasmPath-must-be-local error, but only AFTER the release archive has
been downloaded, its bytes read, and the zip opened: the trace of the
rejecting run contains the download, body-read and zip-open events, so
archive bytes are read even though the wasmPath is non-local. -/
theorem c7_wasmPath_order_counterexample :
    isLocal "../plugin.wasm" = false ∧
    (verifyZip fetchOk traversalManifest (.ok ())).2 = .error "wasmPath must be a local path" ∧
    WasmEvent.download ∈ (verifyZip fetchOk traversalManifest (.ok ())).1 ∧
    WasmEvent.readBody ∈ (verifyZip fetchOk traversalManifest (.ok ())).1 ∧
    WasmEvent.openZip ∈ (verifyZip fetchOk traversalManifest (.ok ())).1 :=
  ⟨by decide, rfl, by decide, by decide, by decide⟩

/-- C7, amended.  A non-local `wasmPath` always fails verification with
the wasmPath-must-be-local error, and the rejection happens after the
archive has been downloaded, read and opened but before any entry scan or
artifact read: the trace of such a run is exactly download, body-read,
zip-open. -/
theorem c7_wasmPath_local_amended (f : ArchiveFetch) (m : Manifest)
    (mwCheck : Except String Unit) (entries : List String)
    (hg : f.httpGet = .ok ()) (hr : f.readBody = .ok ()) (hu : f.unzip = .ok entries)
    (hlocal : isLocal (if m.wasmPath == "" then wasmFileName else m.wasmPath) = false) :
    verifyZip f m mwCheck =
      ([.download, .readBody, .openZip], .error "wasmPath must be a local path") := by
  unfold verifyZip getWasmPath
  rw [hg, hr, hu]
  dsimp only
  rw [hlocal]
  rfl

/-- C7 witness: the amended theorem at the concrete traversal path. -/
theorem c7_wasmPath_local_amended_witness :
    verifyZip fetchOk traversalManifest (.ok ()) =
      ([.download, .readBody, .openZip], .error "wasmPath must be a local path") :=
  c7_wasmPath_local_amended fetchOk traversalManifest (.ok ())
    ["plugin.wasm", ".traefik.yml"] rfl rfl rfl (by decide)

/-! ## Tag listing

`getTags` and `getLatestTag` (pkg/core/scrapper.go, lines 516-534 and
472-488).  The GitHub `ListTags` call is external; its outcome (the tag
names, or a failure) is the input. -/

/-- Translation of `getTags`: wrap a listing failure, otherwise keep
every non-empty tag name. -/
def getTags (listResult : Except String (List String)) : Except String (List String) :=
  match listResult with
  | .error e => .error ("failed to get versions: " ++ e)
  | .ok tags => .ok (tags.filter (fun t => t != ""))

/-- Translation of `getLatestTag`: the first tag of `getTags`, or the
missing-tag error when there is none. -/
def getLatestTag (listResult : Except String (List String)) : Except String String :=
  match getTags listResult with
  | .error e => .error e
  | .ok [] => .error "missing tag/version"
  | .ok (t :: _) => .ok t

/-- Split at the first occurrence of a separator (`strings.Cut`). -/
def splitOnce (sep : Char) : List Char → List Char × Option (List Char)
  | [] => ([], none)
  | c :: rest =>
    if c == sep then ([], some rest)
    else
      let r := splitOnce sep rest
      (c :: r.1, r.2)

/-- A non-empty decimal numeral without a superfluous leading zero. -/
def semverNumeral : List Char → Bool
  | [] => false
  | [c] => c.isDigit
  | c :: rest => c.isDigit && c != '0' && rest.all Char.isDigit

/-- Modelled from the spec: "strict semantic-versioning syntax".  No
revision of the tag-listing code in src/ validates tag names, so the
validator the spec postulates is reconstructed from the spec's words:
a `v`-prefixed `MAJOR.MINOR.PATCH` numeric core, optionally followed by
`-` plus a non-empty prerelease and `+` plus non-empty build metadata. -/
def semverValid (s : String) : Bool :=
  match s.data with
  | 'v' :: rest =>
    let coreBuild := splitOnce '+' rest
    let corePre := splitOnce '-' coreBuild.1
    let coreOk :=
      match splitOnChar '.' corePre.1 with
      | [ma, mi, pa] => semverNumeral ma && semverNumeral mi && semverNumeral pa
      | _ => false
    let preOk :=
      match corePre.2 with
      | none => true
      | some p => !p.isEmpty
    let buildOk :=
      match coreBuild.2 with
      | none => true
      | some b => !b.isEmpty
    coreOk && preOk && buildOk
  | _ => false

theorem semverValid_examples :
    semverValid "v1.2.3" = true ∧ semverValid "v0.1.0-beta.1" = true ∧
    semverValid "1.2.3" = false ∧ semverValid "not-semver" = false := by decide

/-- C8, counterexample.  A tag name that strict semantic versioning
rejects flows through tag listing without an error: the listing succeeds
and even `getLatestTag` happily returns the non-semver tag. -/
theorem c8_no_semver_validation_counterexample :
    semverValid "not-semver" = false ∧
    getTags (.ok ["not-semver"]) = .ok ["not-semver"] ∧
    getLatestTag (.ok ["not-semver"]) = .ok "not-semver" :=
  ⟨by decide, rfl, rfl⟩

/-- C8, amended.  Tag listing performs no syntax validation at all: it
fails exactly when the underlying GitHub listing fails (wrapping that
error), and otherwise returns every non-empty tag name unchanged —
no tag name, semver or not, ever makes the operation fail. -/
theorem c8_getTags_amended (r : Except String (List String)) :
    (∀ e, r = .error e → getTags r = .error ("failed to get versions: " ++ e)) ∧
    (∀ l, r = .ok l → getTags r = .ok (l.filter (fun t => t != ""))) ∧
    (∀ l, r = .ok l → ∀ err, getTags r ≠ .error err) := by
  refine ⟨?_, ?_, ?_⟩
  · intro e h
    rw [h]
    rfl
  · intro l h
    rw [h]
    rfl
  · intro l h err
    rw [h]
    unfold getTags
    intro hc
    cases hc

/-- C8 witness: the amended theorem at a concrete mixed tag list. -/
theorem c8_getTags_amended_witness :
    getTags (.ok ["not-semver", "", "v1.2.3"]) = .ok ["not-semver", "v1.2.3"] ∧
    getTags (.ok ["not-semver", "", "v1.2.3"]) ≠ .error "failed to get versions: x" := by
  constructor
  · have h := (c8_getTags_amended (.ok ["not-semver", "", "v1.2.3"])).2.1
      ["not-semver", "", "v1.2.3"] rfl
    rw [h]
    rfl
  · exact (c8_getTags_amended (.ok ["not-semver", "", "v1.2.3"])).2.2
      ["not-semver", "", "v1.2.3"] rfl "failed to get versions: x"

/-! ## Issue-body secret redaction

`safeIssueBody` (pkg/core/scrapper.go, lines 928-966): collect the
replacement patterns from the environment, sort them longest-first, run
the error message through a `strings.Replacer` mapping each pattern to
`xxx`, and wrap the result in the fixed issue text. -/

/-- `strings.ToLower` (ASCII range, which covers environment keys). -/
def lowerStr (s : String) : String :=
  String.mk (s.data.map Char.toLower)

/-- Keys treated as credentials: the lower-cased key contains `token`,
`password` or `username`.  Both the key and its value become patterns. -/
def credKey (k : String) : Bool :=
  let key := lowerStr k
  strContains key "token" || strContains key "password" || strContains key "username"

/-- Keys treated as endpoints: the lower-cased key contains `_url`,
`_host` or `_port`.  The key becomes a pattern; the value only when
longer than five bytes. -/
def hostKey (k : String) : Bool :=
  let key := lowerStr k
  strContains key "_url" || strContains key "_host" || strContains key "_port"

/-- The `repKeys` accumulation loop of `safeIssueBody`, entry by entry
(an entry matching both filters contributes to both, as in the source). -/
def buildRepKeys : Env → List String
  | [] => []
  | (k, v) :: rest =>
    (if credKey k then [k, v] else []) ++
      (if hostKey k then k :: (if 5 < v.utf8ByteSize then [v] else []) else []) ++
      buildRepKeys rest

/-- Insert into a list kept sorted by decreasing byte length. -/
def insertByLenDesc (x : String) : List String → List String
  | [] => [x]
  | y :: ys =>
    if y.utf8ByteSize < x.utf8ByteSize then x :: y :: ys
    else y :: insertByLenDesc x ys

/-- The `sort.Slice(repKeys, func(i, j) { return len(i) > len(j) })`
step: produce a list ordered by decreasing byte length (the Go sort is
unstable, so any such order is a faithful model). -/
def sortByLenDesc (l : List String) : List String :=
  l.foldr insertByLenDesc []

/-- The scan loop of the `strings.Replacer` built from the sorted
patterns, each mapped to `xxx`: at each position replace the first listed
pattern that matches (skipping without effect over the degenerate empty
pattern) and continue after it, otherwise emit the character.  `fuel`
bounds the recursion; the input length is always enough fuel. -/
def replaceAllFuel (ps : List String) : Nat → List Char → List Char
  | 0, _ => []
  | _, [] => []
  | fuel + 1, c :: rest =>
    match ps.find? (fun p => !p.data.isEmpty && p.data.isPrefixOf (c :: rest)) with
    | some p => "xxx".data ++ replaceAllFuel ps fuel (List.drop p.data.length (c :: rest))
    | none => c :: replaceAllFuel ps fuel rest

/-- `Replace` of the `strings.Replacer`: run the scan with enough fuel. -/
def replaceAll (ps : List String) (s : List Char) : List Char :=
  replaceAllFuel ps s.length s

/-- The fixed issue text before the `%v` of `issueContent`
(pkg/core/scrapper.go, lines 56-65). -/
def issueContentPrefix : String :=
  "The plugin was not imported into Traefik Plugin Catalog.\n\nCause:\n```\n"

/-- The fixed issue text after the `%v` of `issueContent`. -/
def issueContentSuffix : String :=
  "\n```\nTraefik Plugin Analyzer will restart when you will close this issue.\n\nIf you believe there is a problem with the Analyzer or this issue is the result of a false positive, please contact [us](https://community.traefik.io/).\n"

/-- Translation of `safeIssueBody`: redact the failure message with the
longest-first replacer over the environment-derived patterns and embed it
in the issue template. -/
def safeIssueBody (env : Env) (errMsg : String) : String :=
  let repKeys := sortByLenDesc (buildRepKeys env)
  let msgBody := String.mk (replaceAll repKeys errMsg.data)
  issueContentPrefix ++ msgBody ++ issueContentSuffix

set_option maxRecDepth 4096 in
/-- C9, counterexample.  A `_port`-keyed environment value of at most
five bytes is NOT redacted: with `DB_PORT=1234` and an error message
containing `1234`, the filed-issue body still contains the literal value
and no placeholder at all, although the key suggests port information. -/
theorem c9_short_port_value_counterexample :
    hostKey "DB_PORT" = true ∧
    buildRepKeys [("DB_PORT", "1234")] = ["DB_PORT"] ∧
    hasSubstr (safeIssueBody [("DB_PORT", "1234")] "dial 1234 failed").data "1234".data
      = true ∧
    hasSubstr (safeIssueBody [("DB_PORT", "1234")] "dial 1234 failed").data "xxx".data
      = false := by
  refine ⟨by decide, ?_, ?_, ?_⟩
  · decide
  · decide
  · decide

/-! Supporting lemmas for the redaction analysis. -/

theorem mem_insertByLenDesc {x y : String} {l : List String} :
    y ∈ insertByLenDesc x l ↔ y = x ∨ y ∈ l := by
  induction l with
  | nil => simp [insertByLenDesc]
  | cons z zs ih =>
    unfold insertByLenDesc
    by_cases h : z.utf8ByteSize < x.utf8ByteSize
    · simp [h]
    · rw [if_neg h]
      simp only [List.mem_cons, ih]
      tauto

theorem sorted_insertByLenDesc {x : String} {l : List String}
    (h : l.Pairwise (fun a b => b.utf8ByteSize ≤ a.utf8ByteSize)) :
    (insertByLenDesc x l).Pairwise (fun a b => b.utf8ByteSize ≤ a.utf8ByteSize) := by
  induction l with
  | nil => simp [insertByLenDesc]
  | cons z zs ih =>
    rcases List.pairwise_cons.mp h with ⟨hz, hzs⟩
    unfold insertByLenDesc
    by_cases hlt : z.utf8ByteSize < x.utf8ByteSize
    · rw [if_pos hlt]
      refine List.pairwise_cons.mpr ⟨?_, h⟩
      intro b hb
      rcases List.mem_cons.mp hb with rfl | hb2
      · exact Nat.le_of_lt hlt
      · exact Nat.le_trans (hz b hb2) (Nat.le_of_lt hlt)
    · rw [if_neg hlt]
      refine List.pairwise_cons.mpr ⟨?_, ih hzs⟩
      intro b hb
      rcases mem_insertByLenDesc.mp hb with rfl | hb2
      · exact Nat.le_of_not_lt hlt
      · exact hz b hb2

theorem mem_sortByLenDesc {x : String} {l : List String} :
    x ∈ sortByLenDesc l ↔ x ∈ l := by
  induction l with
  | nil => simp [sortByLenDesc]
  | cons z zs ih =>
    show x ∈ insertByLenDesc z (sortByLenDesc zs) ↔ _
    rw [mem_insertByLenDesc, ih]
    simp

theorem sorted_sortByLenDesc (l : List String) :
    (sortByLenDesc l).Pairwise (fun a b => b.utf8ByteSize ≤ a.utf8ByteSize) := by
  induction l with
  | nil => simp [sortByLenDesc]
  | cons z zs ih => exact sorted_insertByLenDesc ih

theorem find?_max_of_sorted {l : List String} {pred : String → Bool} {r : String}
    (hs : l.Pairwise (fun a b => b.utf8ByteSize ≤ a.utf8ByteSize))
    (hf : l.find? pred = some r) :
    ∀ q ∈ l, pred q = true → q.utf8ByteSize ≤ r.utf8ByteSize := by
  induction l with
  | nil => cases hf
  | cons z zs ih =>
    rcases List.pairwise_cons.mp hs with ⟨hz, hzs⟩
    by_cases hp : pred z = true
    · rw [List.find?_cons_of_pos _ hp] at hf
      cases hf
      intro q hq hpq
      rcases List.mem_cons.mp hq with rfl | hq2
      · exact Nat.le_refl _
      · exact hz q hq2
    · rw [List.find?_cons_of_neg _ (by simpa using hp)] at hf
      intro q hq hpq
      rcases List.mem_cons.mp hq with rfl | hq2
      · exact absurd hpq hp
      · exact ih hzs hf q hq2 hpq

theorem replaceAllFuel_nil (ps : List String) (f : Nat) :
    replaceAllFuel ps f [] = [] := by
  cases f <;> rfl

theorem matched_pattern_pos {ps : List String} {s : List Char} {p : String}
    (h : ps.find? (fun q => !q.data.isEmpty && q.data.isPrefixOf s) = some p) :
    0 < p.data.length := by
  have hp := List.find?_some h
  simp only [Bool.and_eq_true, Bool.not_eq_true'] at hp
  cases hd : p.data with
  | nil => rw [hd] at hp; simp [List.isEmpty] at hp
  | cons a t => simp [hd]

theorem replaceAllFuel_congr (ps : List String) :
    ∀ (f g : Nat) (s : List Char), s.length ≤ f → s.length ≤ g →
      replaceAllFuel ps f s = replaceAllFuel ps g s := by
  intro f
  induction f with
  | zero =>
    intro g s hf _
    have : s = [] := List.eq_nil_of_length_eq_zero (Nat.le_zero.mp hf)
    subst this
    rw [replaceAllFuel_nil, replaceAllFuel_nil]
  | succ f ih =>
    intro g s hf hg
    cases s with
    | nil => rw [replaceAllFuel_nil, replaceAllFuel_nil]
    | cons c rest =>
      cases g with
      | zero => exact absurd hg (by simp)
      | succ g =>
        cases hfind : ps.find? (fun p => !p.data.isEmpty && p.data.isPrefixOf (c :: rest)) with
        | some p =>
          have hpos := matched_pattern_pos hfind
          have hlenf : (List.drop p.data.length (c :: rest)).length ≤ f := by
            simp only [List.length_drop, List.length_cons]
            simp only [List.length_cons] at hf
            omega
          have hleng : (List.drop p.data.length (c :: rest)).length ≤ g := by
            simp only [List.length_drop, List.length_cons]
            simp only [List.length_cons] at hg
            omega
          simp only [replaceAllFuel, hfind]
          rw [ih g _ hlenf hleng]
        | none =>
          have hlenf : rest.length ≤ f := by
            simp only [List.length_cons] at hf
            omega
          have hleng : rest.length ≤ g := by
            simp only [List.length_cons] at hg
            omega
          simp only [replaceAllFuel, hfind]
          rw [ih g _ hlenf hleng]

/-- One scan step of the replacer: replace the first matching listed
pattern at the current position, or emit the character. -/
theorem replaceAll_cons (ps : List String) (c : Char) (rest : List Char) :
    replaceAll ps (c :: rest) =
      match ps.find? (fun p => !p.data.isEmpty && p.data.isPrefixOf (c :: rest)) with
      | some p => "xxx".data ++ replaceAll ps (List.drop p.data.length (c :: rest))
      | none => c :: replaceAll ps rest := by
  show replaceAllFuel ps (rest.length + 1) (c :: rest) = _
  cases hfind : ps.find? (fun p => !p.data.isEmpty && p.data.isPrefixOf (c :: rest)) with
  | some p =>
    have hpos := matched_pattern_pos hfind
    simp only [replaceAllFuel, hfind]
    congr 1
    exact replaceAllFuel_congr ps rest.length _ _
      (by simp only [List.length_drop, List.length_cons]; omega) (Nat.le_refl _)
  | none =>
    simp only [replaceAllFuel, hfind]
    rfl

theorem mem_buildRepKeys_cred : ∀ (env : Env) (k v : String),
    (k, v) ∈ env → credKey k = true → k ∈ buildRepKeys env ∧ v ∈ buildRepKeys env := by
  intro env
  induction env with
  | nil => intro k v h; cases h
  | cons p rest ih =>
    intro k v hmem hcred
    obtain ⟨k0, v0⟩ := p
    rcases List.mem_cons.mp hmem with heq | hmem2
    · injection heq with hk hv
      subst hk
      subst hv
      constructor <;> simp [buildRepKeys, hcred]
    · have := ih k v hmem2 hcred
      constructor <;>
        · unfold buildRepKeys
          simp only [List.mem_append]
          tauto

theorem mem_buildRepKeys_host : ∀ (env : Env) (k v : String),
    (k, v) ∈ env → hostKey k = true →
      k ∈ buildRepKeys env ∧ (5 < v.utf8ByteSize → v ∈ buildRepKeys env) := by
  intro env
  induction env with
  | nil => intro k v h; cases h
  | cons p rest ih =>
    intro k v hmem hhost
    obtain ⟨k0, v0⟩ := p
    rcases List.mem_cons.mp hmem with heq | hmem2
    · injection heq with hk hv
      subst hk
      subst hv
      constructor
      · simp [buildRepKeys, hhost]
      · intro hlen
        simp [buildRepKeys, hhost, hlen]
    · have := ih k v hmem2 hhost
      constructor
      · unfold buildRepKeys
        simp only [List.mem_append]
        tauto
      · intro hlen
        have hv := this.2 hlen
        unfold buildRepKeys
        simp only [List.mem_append]
        tauto

/-- C9, amended.  Values of `token`/`password`/`username` keys always
become replacement patterns (mapped to the `xxx` placeholder); values of
`_url`/`_host`/`_port` keys become patterns only when longer than five
bytes (the key name itself always does); the pattern list is ordered by
decreasing byte length, and the replacer substitutes, at each position,
the first listed — hence a longest — matching pattern, so longer values
are replaced before shorter ones; the issue body is the redacted message
inside the fixed issue template. -/
theorem c9_safeIssueBody_amended (env : Env) (k v : String) :
    ((k, v) ∈ env → credKey k = true → v ∈ sortByLenDesc (buildRepKeys env)) ∧
    ((k, v) ∈ env → hostKey k = true →
      k ∈ sortByLenDesc (buildRepKeys env) ∧
        (5 < v.utf8ByteSize → v ∈ sortByLenDesc (buildRepKeys env))) ∧
    (sortByLenDesc (buildRepKeys env)).Pairwise
      (fun a b => b.utf8ByteSize ≤ a.utf8ByteSize) ∧
    (∀ (ps : List String) (c : Char) (rest : List Char) (p : String),
      ps.Pairwise (fun a b => b.utf8ByteSize ≤ a.utf8ByteSize) →
      ps.find? (fun q => !q.data.isEmpty && q.data.isPrefixOf (c :: rest)) = some p →
      replaceAll ps (c :: rest) =
          "xxx".data ++ replaceAll ps (List.drop p.data.length (c :: rest)) ∧
        ∀ q ∈ ps, (!q.data.isEmpty && q.data.isPrefixOf (c :: rest)) = true →
          q.utf8ByteSize ≤ p.utf8ByteSize) ∧
    (∀ msg, safeIssueBody env msg =
      issueContentPrefix ++
        String.mk (replaceAll (sortByLenDesc (buildRepKeys env)) msg.data) ++
        issueContentSuffix) := by
  refine ⟨?_, ?_, sorted_sortByLenDesc _, ?_, fun msg => rfl⟩
  · intro hmem hcred
    exact mem_sortByLenDesc.mpr (mem_buildRepKeys_cred env k v hmem hcred).2
  · intro hmem hhost
    have h := mem_buildRepKeys_host env k v hmem hhost
    exact ⟨mem_sortByLenDesc.mpr h.1, fun hlen => mem_sortByLenDesc.mpr (h.2 hlen)⟩
  · intro ps c rest p hsorted hfind
    refine ⟨?_, find?_max_of_sorted hsorted hfind⟩
    rw [replaceAll_cons, hfind]

/-- C9 witness: with `API_TOKEN=secretvalue` and `B_TOKEN=secret`, both
values are patterns, and at a position where both match the replacer
substitutes the longer `secretvalue`, not the shorter `secret`. -/
theorem c9_safeIssueBody_amended_witness :
    "secretvalue" ∈
      sortByLenDesc (buildRepKeys [("API_TOKEN", "secretvalue"), ("B_TOKEN", "secret")]) ∧
    replaceAll
        (sortByLenDesc (buildRepKeys [("API_TOKEN", "secretvalue"), ("B_TOKEN", "secret")]))
        ("secretvalue".data) =
      "xxx".data ++
        replaceAll
          (sortByLenDesc (buildRepKeys [("API_TOKEN", "secretvalue"), ("B_TOKEN", "secret")]))
          (List.drop "secretvalue".data.length "secretvalue".data) := by
  constructor
  · exact (c9_safeIssueBody_amended
      [("API_TOKEN", "secretvalue"), ("B_TOKEN", "secret")] "API_TOKEN" "secretvalue").1
      (by decide) (by decide)
  · exact ((c9_safeIssueBody_amended
      [("API_TOKEN", "secretvalue"), ("B_TOKEN", "secret")] "API_TOKEN" "secretvalue").2.2.2.1
      (sortByLenDesc (buildRepKeys [("API_TOKEN", "secretvalue"), ("B_TOKEN", "secret")]))
      's' "ecretvalue".data "secretvalue"
      (c9_safeIssueBody_amended
        [("API_TOKEN", "secretvalue"), ("B_TOKEN", "secret")] "API_TOKEN" "secretvalue").2.2.1
      (by decide)).1

end Piceus
